import Mathlib

/-!
Shallow embedding of the live audio session engine of this repository
(src/services/geminiLiveService.ts and the transcript projection in
src/App.tsx), together with theorems settling the specification claims.

Times and buffer durations are modelled as rationals (the source uses
floating-point seconds from the Web Audio clock; the claims are about
ordering and exact bookkeeping, not rounding).  The external Web Audio
decode step (decodeAudioData) is modelled by its outcome: an inbound
audio chunk either decodes to a buffer of some duration or fails.
AudioBufferSourceNode handles are modelled by numeric identifiers.
-/

/-- Connection lifecycle states, from src/types (ConnectionStatus enum). -/
inductive ConnectionStatus where
  | DISCONNECTED
  | CONNECTING
  | CONNECTED
  | ERROR
deriving DecidableEq, Repr

/-- One invocation of the transcript callback: onTranscript(text, isUser, isFinal). -/
structure TranscriptEvent where
  text : String
  isUser : Bool
  isFinal : Bool
deriving DecidableEq, Repr

/-- One inbound audio payload (message.serverContent.modelTurn.parts[0].inlineData.data)
together with the outcome of the external decode (decodeAudioData): either a playable
buffer of some duration, or a decode failure. -/
structure AudioChunk where
  decoded : Option Rat
deriving DecidableEq, Repr

/-- The fields of a LiveServerMessage that handleMessage reads
(message.serverContent.outputTranscription / inputTranscription / turnComplete /
modelTurn audio data / interrupted).  Any subset may be present at once. -/
structure ServerMessage where
  outputTranscription : Option String
  inputTranscription : Option String
  turnComplete : Bool
  audioData : Option AudioChunk
  interrupted : Bool
deriving DecidableEq, Repr

/-- A message with no fields set. -/
def emptyMessage : ServerMessage :=
  ⟨none, none, false, none, false⟩

/-- A message carrying only a Model (output) transcript delta. -/
def outputDeltaMessage (d : String) : ServerMessage :=
  { emptyMessage with outputTranscription := some d }

/-- A message carrying only a User (input) transcript delta. -/
def inputDeltaMessage (d : String) : ServerMessage :=
  { emptyMessage with inputTranscription := some d }

/-- A message carrying only the turn-complete signal. -/
def turnCompleteMessage : ServerMessage :=
  { emptyMessage with turnComplete := true }

/-- A message carrying only an audio chunk that decodes to a buffer of the
given duration. -/
def audioMessage (duration : Rat) : ServerMessage :=
  { emptyMessage with audioData := some ⟨some duration⟩ }

/-- A message carrying only an audio chunk whose decode fails. -/
def badAudioMessage : ServerMessage :=
  { emptyMessage with audioData := some ⟨none⟩ }

/-- A message carrying only the interruption signal. -/
def interruptionMessage : ServerMessage :=
  { emptyMessage with interrupted := true }

/-- The mutable fields of GeminiLiveService.  AudioContext / MediaStream /
session handles are modelled by presence flags (null vs non-null is all the
session logic inspects); scriptProcessor.onaudioprocess being wired is
captureActive.  nextId supplies fresh identifiers for created
AudioBufferSourceNodes. -/
structure ServiceState where
  nextStartTime : Rat
  sources : List Nat
  currentInputTranscription : String
  currentOutputTranscription : String
  inputAudioContext : Bool
  outputAudioContext : Bool
  mediaStream : Bool
  captureActive : Bool
  sessionActive : Bool
  nextId : Nat
deriving DecidableEq, Repr

/-- Field initializers of GeminiLiveService: nextStartTime = 0, empty source
set, empty transcription buffers, no resources acquired. -/
def initialState : ServiceState :=
  ⟨0, [], "", "", false, false, false, false, false, 0⟩

/-- Section 1 of handleMessage: outputTranscription is appended to the Model
buffer and a non-final Model event is emitted; otherwise (else-if in the
source) inputTranscription is appended to the User buffer and a non-final
User event is emitted. -/
def applyTranscription (s : ServiceState) (m : ServerMessage) :
    ServiceState × List TranscriptEvent :=
  match m.outputTranscription with
  | some text =>
      let buf := s.currentOutputTranscription ++ text
      ({ s with currentOutputTranscription := buf }, [⟨buf, false, false⟩])
  | none =>
      match m.inputTranscription with
      | some text =>
          let buf := s.currentInputTranscription ++ text
          ({ s with currentInputTranscription := buf }, [⟨buf, true, false⟩])
      | none => (s, [])

/-- The turnComplete block of handleMessage: for each non-empty buffer
(input first, then output, matching the source order) emit a final event and
reset the buffer to the empty string. -/
def applyTurnComplete (s : ServiceState) (m : ServerMessage) :
    ServiceState × List TranscriptEvent :=
  if m.turnComplete then
    let p1 :=
      if s.currentInputTranscription ≠ "" then
        ({ s with currentInputTranscription := "" },
         [TranscriptEvent.mk s.currentInputTranscription true true])
      else (s, ([] : List TranscriptEvent))
    let p2 :=
      if p1.1.currentOutputTranscription ≠ "" then
        ({ p1.1 with currentOutputTranscription := "" },
         [TranscriptEvent.mk p1.1.currentOutputTranscription false true])
      else (p1.1, ([] : List TranscriptEvent))
    (p2.1, p1.2 ++ p2.2)
  else (s, [])

/-- Section 2 of handleMessage: if an audio payload is present and the output
context exists, first clamp nextStartTime to the engine clock
(nextStartTime = max(nextStartTime, currentTime) happens before the decode
try block), then on decode success create a source, start it at the clamped
nextStartTime, advance nextStartTime by the buffer duration and add the
source to the active set; on decode failure only the clamp remains.
Returns the (source id, scheduled start time) pairs. -/
def applyAudioChunk (s : ServiceState) (m : ServerMessage) (currentTime : Rat) :
    ServiceState × List (Nat × Rat) :=
  match m.audioData with
  | some chunk =>
      if s.outputAudioContext then
        let s1 := { s with nextStartTime := max s.nextStartTime currentTime }
        match chunk.decoded with
        | some duration =>
            ({ s1 with
                nextStartTime := s1.nextStartTime + duration,
                sources := s1.sources ++ [s1.nextId],
                nextId := s1.nextId + 1 },
             [(s1.nextId, s1.nextStartTime)])
        | none => (s1, [])
      else (s, [])
  | none => (s, [])

/-- stopAllAudio: stop every source in the set and delete it; returns the
identifiers of the stopped sources. -/
def stopAllAudioSources (s : ServiceState) : ServiceState × List Nat :=
  ({ s with sources := [] }, s.sources)

/-- Section 3 of handleMessage: on interrupted, stop all audio, clear the
stale Model transcription buffer and reset nextStartTime to 0. -/
def applyInterruption (s : ServiceState) (m : ServerMessage) :
    ServiceState × List Nat :=
  if m.interrupted then
    let p := stopAllAudioSources s
    ({ p.1 with currentOutputTranscription := "", nextStartTime := 0 }, p.2)
  else (s, [])

/-- Everything one call of handleMessage produces: the successor state, the
transcript callback invocations in order, the (source id, start time) pairs
scheduled, and the identifiers of sources stopped by an interruption. -/
structure HandleResult where
  state : ServiceState
  events : List TranscriptEvent
  scheduled : List (Nat × Rat)
  stopped : List Nat
deriving DecidableEq, Repr

/-- GeminiLiveService.handleMessage: transcription, then turn-complete,
then audio, then interruption, in the source order. -/
def handleMessage (s : ServiceState) (m : ServerMessage) (currentTime : Rat) :
    HandleResult :=
  let p1 := applyTranscription s m
  let p2 := applyTurnComplete p1.1 m
  let p3 := applyAudioChunk p2.1 m currentTime
  let p4 := applyInterruption p3.1 m
  ⟨p4.1, p1.2 ++ p2.2, p3.2, p4.2⟩

/-- Accumulated outcome of dispatching a sequence of inbound messages, each
paired with the engine clock value current when it is handled. -/
structure RunResult where
  state : ServiceState
  events : List TranscriptEvent
  scheduled : List (Nat × Rat)
deriving DecidableEq, Repr

/-- Dispatch a sequence of (message, engine clock) pairs through handleMessage. -/
def runMessages : ServiceState → List (ServerMessage × Rat) → RunResult
  | s, [] => ⟨s, [], []⟩
  | s, (m, t) :: rest =>
      let r := handleMessage s m t
      let r2 := runMessages r.state rest
      ⟨r2.state, r.events ++ r2.events, r.scheduled ++ r2.scheduled⟩

/-- The synchronous success path of GeminiLiveService.connect: it emits
CONNECTING unconditionally (there is no already-connected guard in the
source), creates fresh input and output AudioContexts, acquires the media
stream and opens the session.  Returns the status callback invocations. -/
def connect (s : ServiceState) : ServiceState × List ConnectionStatus :=
  ({ s with
      inputAudioContext := true,
      outputAudioContext := true,
      mediaStream := true,
      sessionActive := true },
   [ConnectionStatus.CONNECTING])

/-- The onopen callback of the live session: emit CONNECTED and start the
capture pipeline (setupAudioInput wires scriptProcessor.onaudioprocess). -/
def onOpen (s : ServiceState) : ServiceState × List ConnectionStatus :=
  ({ s with captureActive := true }, [ConnectionStatus.CONNECTED])

/-- GeminiLiveService.disconnect: unwire the capture callback, stop the media
tracks, stop all playback sources, close and null both AudioContexts, null
the media stream and the session promise.  The source never touches
nextStartTime here. -/
def disconnect (s : ServiceState) : ServiceState :=
  let s1 := { s with captureActive := false, mediaStream := false }
  let s2 := (stopAllAudioSources s1).1
  { s2 with
      inputAudioContext := false,
      outputAudioContext := false,
      sessionActive := false }

/-- The state after connect succeeded and the session reported open. -/
def connectedState : ServiceState :=
  (onOpen (connect initialState).1).1

/-- The ChatMessage record kept by the App component (src/types); role is
modelled as the isUser flag (role = isUser ? user : model), the id by a
fresh number, the Date timestamp is omitted (no claim mentions it). -/
structure ChatMessage where
  id : Nat
  role : Bool
  text : String
  isFinal : Bool
deriving DecidableEq, Repr

/-- App.handleTranscript: if the last message in the list has the same role
and is not final, update it in place with the new text and finality flag;
otherwise append a fresh message. -/
def handleTranscript (prev : List ChatMessage) (text : String) (isUser : Bool)
    (isFinal : Bool) (freshId : Nat) : List ChatMessage :=
  match prev.getLast? with
  | some lastMsg =>
      if lastMsg.role = isUser ∧ lastMsg.isFinal = false then
        prev.dropLast ++ [{ lastMsg with text := text, isFinal := isFinal }]
      else
        prev ++ [⟨freshId, isUser, text, isFinal⟩]
  | none => prev ++ [⟨freshId, isUser, text, isFinal⟩]

/-- Fold a sequence of transcript callback invocations (text, isUser, isFinal)
through handleTranscript, drawing fresh ids from a counter. -/
def runTranscripts : List ChatMessage → List (String × Bool × Bool) → Nat → List ChatMessage
  | msgs, [], _ => msgs
  | msgs, (t, u, f) :: rest, fid =>
      runTranscripts (handleTranscript msgs t u f fid) rest (fid + 1)

/-- Concatenation of a list of transcript deltas in arrival order. -/
def concatList : List String → String
  | [] => ""
  | d :: ds => d ++ concatList ds

/-- The Model transcript events emitted while a list of deltas arrives, given
the text already accumulated: each event carries the full accumulation so far. -/
def outputEventsFrom : String → List String → List TranscriptEvent
  | _, [] => []
  | acc, d :: ds => ⟨acc ++ d, false, false⟩ :: outputEventsFrom (acc ++ d) ds

/-- A back-to-back arrival of Model transcript deltas (engine clock is
irrelevant to transcription; it is fixed at 0). -/
def outputDeltaRun (ds : List String) : List (ServerMessage × Rat) :=
  ds.map (fun d => (outputDeltaMessage d, 0))

/-- The state reached from the connected state after one 1-second audio
chunk has arrived at engine time 0 and been scheduled. -/
def stateAfterOneChunk : ServiceState :=
  (runMessages connectedState [(audioMessage 1, 0)]).state

/-- A message carrying one transcript delta for the given speaker (User when
the flag is true, Model otherwise). -/
def deltaMessage (isUser : Bool) (d : String) : ServerMessage :=
  if isUser then inputDeltaMessage d else outputDeltaMessage d

/-- A back-to-back arrival of transcript deltas for the two speakers,
interleaved in arrival order (engine clock is irrelevant to transcription;
it is fixed at 0). -/
def deltaRun (ps : List (Bool × String)) : List (ServerMessage × Rat) :=
  ps.map (fun p => (deltaMessage p.1 p.2, 0))

/-- The deltas belonging to one speaker, in arrival order. -/
def speakerDeltas (isUser : Bool) (ps : List (Bool × String)) : List String :=
  (ps.filter (fun p => p.1 == isUser)).map (fun p => p.2)

/-- The transcript events emitted while interleaved deltas arrive, given the
text already accumulated for each speaker: each event carries the full
accumulation so far of its own speaker. -/
def deltaEventsFrom : String → String → List (Bool × String) → List TranscriptEvent
  | _, _, [] => []
  | accIn, accOut, (u, d) :: ps =>
      if u then ⟨accIn ++ d, true, false⟩ :: deltaEventsFrom (accIn ++ d) accOut ps
      else ⟨accOut ++ d, false, false⟩ :: deltaEventsFrom accIn (accOut ++ d) ps

/-- The events of one speaker during a delta sequence, given the text that
speaker had already accumulated: successive accumulations of the deltas. -/
def speakerEventsFrom (isUser : Bool) : String → List String → List TranscriptEvent
  | _, [] => []
  | acc, d :: ds => ⟨acc ++ d, isUser, false⟩ :: speakerEventsFrom isUser (acc ++ d) ds

/-- Handling a message that carries only a Model transcript delta appends the
delta to the Model buffer and emits one non-final Model event. -/
theorem handleMessage_outputDelta (s : ServiceState) (d : String) (t : Rat) :
    handleMessage s (outputDeltaMessage d) t =
      ⟨{ s with currentOutputTranscription := s.currentOutputTranscription ++ d },
       [⟨s.currentOutputTranscription ++ d, false, false⟩], [], []⟩ := rfl

/-- Dispatching a concatenated message sequence composes the two runs. -/
theorem runMessages_append (s : ServiceState) (xs ys : List (ServerMessage × Rat)) :
    runMessages s (xs ++ ys) =
      ⟨(runMessages (runMessages s xs).state ys).state,
       (runMessages s xs).events ++ (runMessages (runMessages s xs).state ys).events,
       (runMessages s xs).scheduled ++ (runMessages (runMessages s xs).state ys).scheduled⟩ := by
  induction xs generalizing s with
  | nil => simp [runMessages]
  | cons p rest ih =>
      obtain ⟨m, t⟩ := p
      simp [runMessages, ih]

/-- Running a pure Model delta sequence appends the concatenation of the
deltas to the Model buffer, schedules nothing, and emits the accumulated
prefix events. -/
theorem runMessages_outputDeltaRun (ds : List String) (s : ServiceState) :
    runMessages s (outputDeltaRun ds) =
      ⟨{ s with currentOutputTranscription := s.currentOutputTranscription ++ concatList ds },
       outputEventsFrom s.currentOutputTranscription ds, []⟩ := by
  induction ds generalizing s with
  | nil => simp [outputDeltaRun, runMessages, concatList, outputEventsFrom]
  | cons d ds ih =>
      simp only [outputDeltaRun, List.map_cons, runMessages, handleMessage_outputDelta]
      have := ih ({ s with currentOutputTranscription := s.currentOutputTranscription ++ d })
      simp only [outputDeltaRun] at this
      rw [this]
      simp [concatList, outputEventsFrom, String.append_assoc]

/-- The four-field conjunction the claims need of GeminiLiveService.connect:
it emits CONNECTING and (re)acquires the audio contexts, the media stream
and the session regardless of the state it is called in — the source has no
already-Connecting/Connected guard. -/
theorem connect_always_emits_connecting (s : ServiceState) :
    (connect s).2 = [ConnectionStatus.CONNECTING] ∧
    (connect s).1.inputAudioContext = true ∧
    (connect s).1.outputAudioContext = true ∧
    (connect s).1.mediaStream = true ∧
    (connect s).1.sessionActive = true :=
  ⟨rfl, rfl, rfl, rfl, rfl⟩

/-- Counterexample to the claim that connect() is a no-op when already
Connected: from the fully connected state, connect() still invokes the
status callback (with CONNECTING). -/
theorem connect_not_noop_when_connected :
    connectedState.sessionActive = true ∧
    connectedState.captureActive = true ∧
    (connect connectedState).2 = [ConnectionStatus.CONNECTING] :=
  ⟨rfl, rfl, rfl⟩

/-- The conjunction the claims need of GeminiLiveService.disconnect: capture
is unwired, the media tracks stopped, all playback sources stopped and the
active set emptied, both audio contexts and the session released, the call
is idempotent — and nextStartTime is left at its previous value (the source
never resets it in disconnect). -/
theorem disconnect_releases_resources (s : ServiceState) :
    (disconnect s).captureActive = false ∧
    (disconnect s).sources = [] ∧
    (disconnect s).inputAudioContext = false ∧
    (disconnect s).outputAudioContext = false ∧
    (disconnect s).mediaStream = false ∧
    (disconnect s).sessionActive = false ∧
    (disconnect s).nextStartTime = s.nextStartTime ∧
    disconnect (disconnect s) = disconnect s ∧
    (∀ u : ServiceState, (stopAllAudioSources u).2 = u.sources ∧
      (stopAllAudioSources u).1.sources = []) :=
  ⟨rfl, rfl, rfl, rfl, rfl, rfl, rfl, rfl, fun _ => ⟨rfl, rfl⟩⟩

/-- Counterexample to the claim that disconnect() resets nextStartTime to
zero: in the reachable state where one 1-second chunk has been scheduled,
nextStartTime is 1, and disconnect() leaves it at 1. -/
theorem disconnect_keeps_nextStartTime :
    (disconnect stateAfterOneChunk).nextStartTime = 1 ∧ (1 : Rat) ≠ 0 := by
  constructor
  · norm_num [disconnect, stopAllAudioSources, stateAfterOneChunk, runMessages,
      handleMessage, applyTranscription, applyTurnComplete, applyAudioChunk,
      applyInterruption, audioMessage, emptyMessage, connectedState, onOpen,
      connect, initialState, max_def]
  · norm_num

/-- The Playback Scheduler contract of handleMessage: a chunk that decodes
successfully is scheduled to start at max(nextStartTime, currentTime) and
nextStartTime then advances by exactly the buffer duration; in the concrete
back-to-back scenario (durations 1 and 1/2 arriving at engine time 0) the
chunks start at 0 and 1 and nextStartTime ends at 3/2. -/
theorem scheduler_clamps_then_advances :
    (∀ (s : ServiceState) (t d : Rat), s.outputAudioContext = true →
      (handleMessage s (audioMessage d) t).scheduled =
        [(s.nextId, max s.nextStartTime t)] ∧
      (handleMessage s (audioMessage d) t).state.nextStartTime =
        max s.nextStartTime t + d) ∧
    ((runMessages connectedState [(audioMessage 1, 0), (audioMessage (1/2), 0)]).scheduled =
        [(0, 0), (1, 1)] ∧
     (runMessages connectedState
        [(audioMessage 1, 0), (audioMessage (1/2), 0)]).state.nextStartTime = 3/2) := by
  constructor
  · intro s t d hctx
    constructor <;>
      simp [handleMessage, applyTranscription, applyTurnComplete, applyAudioChunk,
        applyInterruption, audioMessage, emptyMessage, hctx]
  · constructor <;>
      norm_num [runMessages, handleMessage, applyTranscription, applyTurnComplete,
        applyAudioChunk, applyInterruption, audioMessage, emptyMessage,
        connectedState, onOpen, connect, initialState, max_def]

/-- Witness for the scheduler contract at a concrete input. -/
theorem scheduler_clamps_then_advances_witness :
    (handleMessage connectedState (audioMessage 1) 0).scheduled =
      [(connectedState.nextId, max connectedState.nextStartTime 0)] ∧
    (handleMessage connectedState (audioMessage 1) 0).state.nextStartTime =
      max connectedState.nextStartTime 0 + 1 :=
  scheduler_clamps_then_advances.1 connectedState 0 1 rfl

/-- Decode failure for a single chunk is recovered locally: no buffer is
scheduled or added, no transcript event is emitted, nothing is stopped, the
transcription buffers and all session resources are untouched (no teardown)
— but nextStartTime keeps the clamp to max(nextStartTime, currentTime) that
the source performs before attempting the decode. -/
theorem decode_failure_drops_chunk_only (s : ServiceState) (t : Rat)
    (hctx : s.outputAudioContext = true) :
    (handleMessage s badAudioMessage t).state.nextStartTime = max s.nextStartTime t ∧
    (handleMessage s badAudioMessage t).state.sources = s.sources ∧
    (handleMessage s badAudioMessage t).scheduled = [] ∧
    (handleMessage s badAudioMessage t).events = [] ∧
    (handleMessage s badAudioMessage t).stopped = [] ∧
    (handleMessage s badAudioMessage t).state.currentOutputTranscription =
      s.currentOutputTranscription ∧
    (handleMessage s badAudioMessage t).state.currentInputTranscription =
      s.currentInputTranscription ∧
    (handleMessage s badAudioMessage t).state.sessionActive = s.sessionActive ∧
    (handleMessage s badAudioMessage t).state.captureActive = s.captureActive ∧
    (handleMessage s badAudioMessage t).state.outputAudioContext = s.outputAudioContext ∧
    (handleMessage s badAudioMessage t).state.nextId = s.nextId := by
  refine ⟨?_, ?_, ?_, ?_, ?_, ?_, ?_, ?_, ?_, ?_, ?_⟩ <;>
    simp [handleMessage, applyTranscription, applyTurnComplete, applyAudioChunk,
      applyInterruption, badAudioMessage, emptyMessage, hctx]

/-- Witness for the decode-failure behaviour at a concrete input. -/
theorem decode_failure_drops_chunk_only_witness :
    (handleMessage connectedState badAudioMessage 2).state.nextStartTime =
      max connectedState.nextStartTime 2 ∧
    (handleMessage connectedState badAudioMessage 2).state.sources =
      connectedState.sources ∧
    (handleMessage connectedState badAudioMessage 2).scheduled = [] ∧
    (handleMessage connectedState badAudioMessage 2).events = [] ∧
    (handleMessage connectedState badAudioMessage 2).stopped = [] ∧
    (handleMessage connectedState badAudioMessage 2).state.currentOutputTranscription =
      connectedState.currentOutputTranscription ∧
    (handleMessage connectedState badAudioMessage 2).state.currentInputTranscription =
      connectedState.currentInputTranscription ∧
    (handleMessage connectedState badAudioMessage 2).state.sessionActive =
      connectedState.sessionActive ∧
    (handleMessage connectedState badAudioMessage 2).state.captureActive =
      connectedState.captureActive ∧
    (handleMessage connectedState badAudioMessage 2).state.outputAudioContext =
      connectedState.outputAudioContext ∧
    (handleMessage connectedState badAudioMessage 2).state.nextId =
      connectedState.nextId :=
  decode_failure_drops_chunk_only connectedState 2 rfl

/-- Counterexample to the claim that a dropped chunk leaves nextStartTime
unchanged: from the connected state (nextStartTime 0) a failing chunk
arriving at engine time 2 moves nextStartTime to 2. -/
theorem decode_failure_clamps_nextStartTime :
    (handleMessage connectedState badAudioMessage 2).state.nextStartTime = 2 ∧
    connectedState.nextStartTime = 0 ∧ (2 : Rat) ≠ 0 := by
  refine ⟨?_, rfl, by norm_num⟩
  norm_num [handleMessage, applyTranscription, applyTurnComplete, applyAudioChunk,
    applyInterruption, badAudioMessage, emptyMessage, connectedState, onOpen,
    connect, initialState, max_def]

/-- The transcription section of handleMessage only ever emits non-final
events. -/
theorem applyTranscription_nonfinal (s : ServiceState) (m : ServerMessage) :
    ∀ e ∈ (applyTranscription s m).2, e.isFinal = false := by
  rcases m with ⟨ot, it, tc, ad, ir⟩
  cases ot <;> cases it <;> simp [applyTranscription]

/-- On an interrupted message the final handleMessage section empties the
source set, clears the stale Model buffer and zeroes nextStartTime,
whatever state the earlier sections produced. -/
theorem applyInterruption_interrupted (s : ServiceState) (m : ServerMessage)
    (h : m.interrupted = true) :
    applyInterruption s m =
      ({ s with sources := [], currentOutputTranscription := "", nextStartTime := 0 },
       s.sources) := by
  simp [applyInterruption, stopAllAudioSources, h]

/-- Processing any message carrying the interruption signal leaves the
active-source set empty, discards the in-progress Model transcription, and
resets nextStartTime to 0; if the message does not also carry turn-complete,
no final event is emitted at all (so no final event is ever produced from
the discarded text); and when it carries no audio, the stopped sources are
exactly the previously active ones. -/
theorem interruption_clears_playback_and_transcript (s : ServiceState)
    (m : ServerMessage) (t : Rat) (h : m.interrupted = true) :
    (handleMessage s m t).state.sources = [] ∧
    (handleMessage s m t).state.currentOutputTranscription = "" ∧
    (handleMessage s m t).state.nextStartTime = 0 ∧
    (m.turnComplete = false →
      (handleMessage s m t).events.filter (fun e => e.isFinal) = []) ∧
    (m.turnComplete = false → m.audioData = none →
      (handleMessage s m t).stopped = s.sources) := by
  refine ⟨?_, ?_, ?_, ?_, ?_⟩
  · simp [handleMessage, applyInterruption_interrupted _ m h]
  · simp [handleMessage, applyInterruption_interrupted _ m h]
  · simp [handleMessage, applyInterruption_interrupted _ m h]
  · intro htc
    have hev : (handleMessage s m t).events = (applyTranscription s m).2 := by
      simp [handleMessage, applyTurnComplete, htc]
    rw [hev]
    rw [List.filter_eq_nil_iff]
    intro e he
    simp [applyTranscription_nonfinal s m e he]
  · intro htc had
    have hsrc : (applyTranscription s m).1.sources = s.sources := by
      rcases m with ⟨ot, it, tc, ad, ir⟩
      cases ot <;> cases it <;> rfl
    simp [handleMessage, applyTurnComplete, htc, applyAudioChunk, had,
      applyInterruption_interrupted _ m h, hsrc, h]

/-- Witness for the interruption behaviour: interrupting right after one
scheduled chunk stops that chunk's source and resets the timeline. -/
theorem interruption_clears_playback_and_transcript_witness :
    (handleMessage stateAfterOneChunk interruptionMessage 0).state.sources = [] ∧
    (handleMessage stateAfterOneChunk interruptionMessage 0).state.currentOutputTranscription = "" ∧
    (handleMessage stateAfterOneChunk interruptionMessage 0).state.nextStartTime = 0 ∧
    (handleMessage stateAfterOneChunk interruptionMessage 0).events.filter
      (fun e => e.isFinal) = [] ∧
    (handleMessage stateAfterOneChunk interruptionMessage 0).stopped =
      stateAfterOneChunk.sources := by
  have h := interruption_clears_playback_and_transcript stateAfterOneChunk
    interruptionMessage 0 rfl
  exact ⟨h.1, h.2.1, h.2.2.1, h.2.2.2.1 rfl, h.2.2.2.2 rfl rfl⟩

/-- A list whose getLast? is some a splits as dropLast plus [a]. -/
theorem eq_dropLast_append {α : Type} (l : List α) (a : α) (h : l.getLast? = some a) :
    l = l.dropLast ++ [a] := by
  have hne : l ≠ [] := by intro hnil; rw [hnil] at h; simp at h
  have hsplit := List.dropLast_append_getLast hne
  have hlast : l.getLast hne = a := by
    rw [List.getLast?_eq_getLast l hne] at h
    exact Option.some.inj h
  rw [← hlast]
  exact hsplit.symm

/-- App.handleTranscript never mutates a message that is already final: every
final message of the previous list is still present, unchanged, after any
callback invocation (the in-place update only ever touches the trailing
non-final message). -/
theorem final_message_never_mutated (prev : List ChatMessage) (text : String)
    (u f : Bool) (fid : Nat) (msg : ChatMessage)
    (hmem : msg ∈ prev) (hfin : msg.isFinal = true) :
    msg ∈ handleTranscript prev text u f fid := by
  unfold handleTranscript
  cases hlast : prev.getLast? with
  | none => exact List.mem_append_left _ hmem
  | some lastMsg =>
      dsimp only
      by_cases hcond : lastMsg.role = u ∧ lastMsg.isFinal = false
      · rw [if_pos hcond]
        have hsplit := eq_dropLast_append prev lastMsg hlast
        rw [hsplit] at hmem
        rcases List.mem_append.mp hmem with hmem1 | hmem2
        · exact List.mem_append_left _ hmem1
        · exfalso
          have hm : msg = lastMsg := by simpa using hmem2
          rw [hm, hcond.2] at hfin
          cases hfin
      · rw [if_neg hcond]
        exact List.mem_append_left _ hmem

/-- Witness: a final message survives a later callback for the same speaker. -/
theorem final_message_never_mutated_witness :
    (⟨0, true, "hi", true⟩ : ChatMessage) ∈
      handleTranscript [⟨0, true, "hi", true⟩] "x" true false 1 :=
  final_message_never_mutated [⟨0, true, "hi", true⟩] "x" true false 1
    ⟨0, true, "hi", true⟩ (by simp) rfl

/-- Counterexample to the at-most-one-non-final-message-per-speaker claim:
after the callback sequence (user non-final, model non-final, user
non-final) the visible list holds two non-final user messages, because
handleTranscript only inspects the last list element. -/
theorem two_nonfinal_messages_same_speaker :
    ((runTranscripts [] [("a", true, false), ("b", false, false), ("c", true, false)] 0).filter
        (fun msg => msg.role && !msg.isFinal)).length = 2 := by decide

/-- The delta events all carry isFinal = false, so filtering for final
events drops all of them. -/
theorem outputEventsFrom_filter (acc : String) (ds : List String) :
    (outputEventsFrom acc ds).filter (fun e => e.isFinal) = [] := by
  induction ds generalizing acc with
  | nil => rfl
  | cons d ds ih => simp [outputEventsFrom, List.filter, ih]

/-- Handling a pure turn-complete message emits a final event for each
non-empty buffer (User first, then Model, the source order) and resets both
buffers; nothing is scheduled or stopped. -/
theorem handleMessage_turnComplete (s : ServiceState) (t : Rat) :
    handleMessage s turnCompleteMessage t =
      ⟨{ s with currentInputTranscription := "", currentOutputTranscription := "" },
       (if s.currentInputTranscription = "" then []
        else [⟨s.currentInputTranscription, true, true⟩]) ++
       (if s.currentOutputTranscription = "" then []
        else [⟨s.currentOutputTranscription, false, true⟩]),
       [], []⟩ := by
  rcases s with ⟨nst, src, cin, cout, a, b, c, d, e, nid⟩
  by_cases h1 : cin = "" <;> by_cases h2 : cout = "" <;>
    simp [handleMessage, applyTranscription, applyTurnComplete, applyAudioChunk,
      applyInterruption, turnCompleteMessage, emptyMessage, h1, h2]

/-- For any delta sequence with a non-empty concatenation, the deltas
followed by one turn-complete produce exactly one final event, carrying the
concatenation of the deltas in arrival order, and leave the Model buffer
empty. -/
theorem turn_complete_flushes_concatenated_deltas (ds : List String)
    (s : ServiceState)
    (hout : s.currentOutputTranscription = "")
    (hin : s.currentInputTranscription = "")
    (hne : concatList ds ≠ "") :
    ((runMessages s (outputDeltaRun ds ++ [(turnCompleteMessage, 0)])).events.filter
        (fun e => e.isFinal)) = [⟨concatList ds, false, true⟩] ∧
    (runMessages s
        (outputDeltaRun ds ++ [(turnCompleteMessage, 0)])).state.currentOutputTranscription
      = "" := by
  rw [runMessages_append, runMessages_outputDeltaRun]
  simp only [runMessages, handleMessage_turnComplete]
  constructor
  · simp [hin, hout, hne, outputEventsFrom_filter, List.filter_append,
      String.empty_append]
  · simp

/-- Witness: the spec scenario deltas Hel, lo the, re followed by
turn-complete yield exactly one final event with the concatenated text. -/
theorem turn_complete_flushes_concatenated_deltas_witness :
    ((runMessages connectedState (outputDeltaRun ["Hel", "lo the", "re"] ++
        [(turnCompleteMessage, 0)])).events.filter (fun e => e.isFinal)) =
      [⟨concatList ["Hel", "lo the", "re"], false, true⟩] ∧
    (runMessages connectedState (outputDeltaRun ["Hel", "lo the", "re"] ++
        [(turnCompleteMessage, 0)])).state.currentOutputTranscription = "" :=
  turn_complete_flushes_concatenated_deltas ["Hel", "lo the", "re"] connectedState
    rfl rfl (by decide)

/-- Counterexample to the unconditional form of the claim: a single
empty-string delta followed by turn-complete emits no final event at all
(the source only flushes a non-empty buffer), not exactly one. -/
theorem single_empty_delta_yields_no_final_event :
    ((runMessages connectedState (outputDeltaRun [""] ++
        [(turnCompleteMessage, 0)])).events.filter (fun e => e.isFinal)) = [] := by
  decide

/-- One delta event is emitted per delta. -/
theorem outputEventsFrom_length (acc : String) (ds : List String) :
    (outputEventsFrom acc ds).length = ds.length := by
  induction ds generalizing acc with
  | nil => rfl
  | cons d ds ih => simp [outputEventsFrom, ih]

/-- The i-th delta event carries the accumulation of the first i+1 deltas on
top of the text already accumulated. -/
theorem outputEventsFrom_get? (ds : List String) (acc : String) (i : Nat)
    (h : i < ds.length) :
    (outputEventsFrom acc ds).get? i =
      some ⟨acc ++ concatList (ds.take (i + 1)), false, false⟩ := by
  induction ds generalizing acc i with
  | nil => simp at h
  | cons d ds ih =>
      cases i with
      | zero => simp [outputEventsFrom, concatList, String.append_empty]
      | succ k =>
          have hk : k < ds.length := by simpa using h
          simp only [outputEventsFrom, List.get?_cons_succ]
          rw [ih (acc ++ d) k hk]
          simp [concatList, String.append_assoc]

/-- Taking one more delta extends the concatenation by a (possibly empty)
tail. -/
theorem concatList_take_succ (ds : List String) (i : Nat) :
    ∃ tail, concatList (ds.take (i + 1)) = concatList (ds.take i) ++ tail := by
  induction ds generalizing i with
  | nil => exact ⟨"", by simp [concatList, String.append_empty]⟩
  | cons d ds ih =>
      cases i with
      | zero => exact ⟨d ++ "", by simp [concatList, String.empty_append]⟩
      | succ k =>
          obtain ⟨tail, ht⟩ := ih k
          exact ⟨tail, by simp [concatList, ht, String.append_assoc]⟩

/-- Handling a message that carries only a User transcript delta appends the
delta to the User buffer and emits one non-final User event. -/
theorem handleMessage_inputDelta (s : ServiceState) (d : String) (t : Rat) :
    handleMessage s (inputDeltaMessage d) t =
      ⟨{ s with currentInputTranscription := s.currentInputTranscription ++ d },
       [⟨s.currentInputTranscription ++ d, true, false⟩], [], []⟩ := rfl

/-- Running an interleaved delta sequence appends each speaker's deltas to
that speaker's buffer, schedules nothing, and emits the accumulated events. -/
theorem runMessages_deltaRun (ps : List (Bool × String)) (s : ServiceState) :
    runMessages s (deltaRun ps) =
      ⟨{ s with
          currentInputTranscription :=
            s.currentInputTranscription ++ concatList (speakerDeltas true ps),
          currentOutputTranscription :=
            s.currentOutputTranscription ++ concatList (speakerDeltas false ps) },
       deltaEventsFrom s.currentInputTranscription s.currentOutputTranscription ps,
       []⟩ := by
  induction ps generalizing s with
  | nil =>
      simp [deltaRun, runMessages, speakerDeltas, concatList, deltaEventsFrom,
        String.append_empty]
  | cons p ps ih =>
      obtain ⟨u, d⟩ := p
      cases u
      · have key := ih { s with
          currentOutputTranscription := s.currentOutputTranscription ++ d }
        simp only [deltaRun, List.map_cons] at key ⊢
        simp only [runMessages]
        rw [show handleMessage s (deltaMessage false d) 0 =
              ⟨{ s with
                  currentOutputTranscription := s.currentOutputTranscription ++ d },
               [⟨s.currentOutputTranscription ++ d, false, false⟩], [], []⟩ from rfl,
            key]
        simp [speakerDeltas, List.filter_cons, concatList, deltaEventsFrom,
          String.append_assoc]
      · have key := ih { s with
          currentInputTranscription := s.currentInputTranscription ++ d }
        simp only [deltaRun, List.map_cons] at key ⊢
        simp only [runMessages]
        rw [show handleMessage s (deltaMessage true d) 0 =
              ⟨{ s with
                  currentInputTranscription := s.currentInputTranscription ++ d },
               [⟨s.currentInputTranscription ++ d, true, false⟩], [], []⟩ from rfl,
            key]
        simp [speakerDeltas, List.filter_cons, concatList, deltaEventsFrom,
          String.append_assoc]

/-- Restricting the interleaved event stream to one speaker yields exactly
that speaker's successive accumulations over that speaker's deltas. -/
theorem deltaEventsFrom_filter_speaker (u : Bool) (accIn accOut : String)
    (ps : List (Bool × String)) :
    (deltaEventsFrom accIn accOut ps).filter (fun e => e.isUser == u) =
      speakerEventsFrom u (if u then accIn else accOut) (speakerDeltas u ps) := by
  induction ps generalizing accIn accOut with
  | nil => cases u <;> simp [deltaEventsFrom, speakerDeltas, speakerEventsFrom]
  | cons p ps ih =>
      obtain ⟨v, d⟩ := p
      cases v <;> cases u
      · exact congrArg (List.cons ⟨accOut ++ d, false, false⟩)
          (ih accIn (accOut ++ d))
      · exact ih accIn (accOut ++ d)
      · exact ih (accIn ++ d) accOut
      · exact congrArg (List.cons ⟨accIn ++ d, true, false⟩)
          (ih (accIn ++ d) accOut)

/-- One event per delta of the speaker. -/
theorem speakerEventsFrom_length (u : Bool) (acc : String) (ds : List String) :
    (speakerEventsFrom u acc ds).length = ds.length := by
  induction ds generalizing acc with
  | nil => rfl
  | cons d ds ih => simp [speakerEventsFrom, ih]

/-- The i-th event of a speaker carries the accumulation of that speaker's
first i+1 deltas on top of the text already accumulated. -/
theorem speakerEventsFrom_get? (u : Bool) (ds : List String) (acc : String)
    (i : Nat) (h : i < ds.length) :
    (speakerEventsFrom u acc ds).get? i =
      some ⟨acc ++ concatList (ds.take (i + 1)), u, false⟩ := by
  induction ds generalizing acc i with
  | nil => simp at h
  | cons d ds ih =>
      cases i with
      | zero => simp [speakerEventsFrom, concatList, String.append_empty]
      | succ k =>
          have hk : k < ds.length := by simpa using h
          simp only [speakerEventsFrom, List.get?_cons_succ]
          rw [ih (acc ++ d) k hk]
          simp [concatList, String.append_assoc]

/-- The interleaved delta events contain no final event of any speaker. -/
theorem deltaEventsFrom_filter_final (u : Bool) (accIn accOut : String)
    (ps : List (Bool × String)) :
    (deltaEventsFrom accIn accOut ps).filter
      (fun e => e.isFinal && e.isUser == u) = [] := by
  induction ps generalizing accIn accOut with
  | nil => rfl
  | cons p ps ih =>
      obtain ⟨v, d⟩ := p
      cases v <;> simp [deltaEventsFrom, List.filter_cons, ih]

/-- Every transcript callback invocation for a given speaker carries the full
text accumulated so far in that speaker's current turn — the concatenation of
all of that speaker's deltas since the turn opened, on top of the buffer the
turn started from — not just the latest delta, even when the two speakers'
deltas interleave; consequently each successive event of that speaker extends
the previous one's text, and the final invocation at turn-complete carries
the same full accumulated concatenation. -/
theorem transcript_events_carry_accumulated_text (ps : List (Bool × String))
    (s : ServiceState) (u : Bool) :
    (∀ i, i < (speakerDeltas u ps).length →
      ((runMessages s (deltaRun ps)).events.filter
          (fun e => e.isUser == u)).get? i =
        some ⟨(if u then s.currentInputTranscription
            else s.currentOutputTranscription) ++
          concatList ((speakerDeltas u ps).take (i + 1)), u, false⟩) ∧
    (∀ i e1 e2,
      ((runMessages s (deltaRun ps)).events.filter
          (fun e => e.isUser == u)).get? i = some e1 →
      ((runMessages s (deltaRun ps)).events.filter
          (fun e => e.isUser == u)).get? (i + 1) = some e2 →
      ∃ tail, e2.text = e1.text ++ tail) ∧
    ((if u then s.currentInputTranscription
        else s.currentOutputTranscription) ++
        concatList (speakerDeltas u ps) ≠ "" →
      (runMessages s (deltaRun ps ++ [(turnCompleteMessage, 0)])).events.filter
          (fun e => e.isFinal && e.isUser == u) =
        [⟨(if u then s.currentInputTranscription
            else s.currentOutputTranscription) ++
          concatList (speakerDeltas u ps), u, true⟩]) := by
  refine ⟨?_, ?_, ?_⟩
  · intro i hi
    rw [runMessages_deltaRun]
    dsimp only
    rw [deltaEventsFrom_filter_speaker]
    exact speakerEventsFrom_get? u (speakerDeltas u ps) _ i hi
  · intro i e1 e2 h1 h2
    rw [runMessages_deltaRun] at h1 h2
    dsimp only at h1 h2
    rw [deltaEventsFrom_filter_speaker] at h1 h2
    by_cases hlen : i + 1 < (speakerDeltas u ps).length
    · have hi : i < (speakerDeltas u ps).length := by omega
      rw [speakerEventsFrom_get? u (speakerDeltas u ps) _ i hi] at h1
      rw [speakerEventsFrom_get? u (speakerDeltas u ps) _ (i + 1) hlen] at h2
      obtain ⟨tail, ht⟩ := concatList_take_succ (speakerDeltas u ps) (i + 1)
      refine ⟨tail, ?_⟩
      have he1 := Option.some.inj h1
      have he2 := Option.some.inj h2
      rw [← he1, ← he2]
      dsimp only
      rw [ht, String.append_assoc]
    · exfalso
      have hn : (speakerEventsFrom u
          (if u then s.currentInputTranscription
            else s.currentOutputTranscription)
          (speakerDeltas u ps)).get? (i + 1) = none := by
        rw [List.get?_eq_none, speakerEventsFrom_length]
        omega
      rw [hn] at h2
      cases h2
  · intro hne
    rw [runMessages_append, runMessages_deltaRun]
    simp only [runMessages, handleMessage_turnComplete]
    cases u
    · replace hne : s.currentOutputTranscription ++
          concatList (speakerDeltas false ps) ≠ "" := hne
      simp only [List.filter_append, deltaEventsFrom_filter_final,
        List.append_nil, List.nil_append]
      by_cases hA : s.currentInputTranscription ++
          concatList (speakerDeltas true ps) = "" <;>
        simp [hA, hne, List.filter]
    · replace hne : s.currentInputTranscription ++
          concatList (speakerDeltas true ps) ≠ "" := hne
      simp only [List.filter_append, deltaEventsFrom_filter_final,
        List.append_nil, List.nil_append]
      by_cases hB : s.currentOutputTranscription ++
          concatList (speakerDeltas false ps) = "" <;>
        simp [hB, hne, List.filter]

/-- Witness: with Model deltas Hel and lo the interleaved with a User delta,
the first Model event carries the first delta, the second Model event
extends it, and the final Model event carries the full concatenation. -/
theorem transcript_events_carry_accumulated_text_witness :
    ((runMessages connectedState
        (deltaRun [(false, "Hel"), (true, "Hi"), (false, "lo the")])).events.filter
        (fun e => e.isUser == false)).get? 0 =
      some ⟨connectedState.currentOutputTranscription ++
        concatList ((speakerDeltas false
          [(false, "Hel"), (true, "Hi"), (false, "lo the")]).take 1),
        false, false⟩ ∧
    (∃ tail,
      (TranscriptEvent.mk (connectedState.currentOutputTranscription ++
        concatList ((speakerDeltas false
          [(false, "Hel"), (true, "Hi"), (false, "lo the")]).take 2))
        false false).text =
      (TranscriptEvent.mk (connectedState.currentOutputTranscription ++
        concatList ((speakerDeltas false
          [(false, "Hel"), (true, "Hi"), (false, "lo the")]).take 1))
        false false).text ++ tail) ∧
    (runMessages connectedState
        (deltaRun [(false, "Hel"), (true, "Hi"), (false, "lo the")] ++
          [(turnCompleteMessage, 0)])).events.filter
        (fun e => e.isFinal && e.isUser == false) =
      [⟨connectedState.currentOutputTranscription ++
        concatList (speakerDeltas false
          [(false, "Hel"), (true, "Hi"), (false, "lo the")]), false, true⟩] := by
  have h := transcript_events_carry_accumulated_text
    [(false, "Hel"), (true, "Hi"), (false, "lo the")] connectedState false
  exact ⟨h.1 0 (by decide),
    h.2.1 0 _ _ (h.1 0 (by decide)) (h.1 1 (by decide)),
    h.2.2 (by decide)⟩

/-- The transcription section never changes nextStartTime. -/
theorem applyTranscription_nextStartTime (s : ServiceState) (m : ServerMessage) :
    (applyTranscription s m).1.nextStartTime = s.nextStartTime := by
  rcases m with ⟨ot, it, tc, ad, ir⟩
  cases ot <;> cases it <;> rfl

/-- The turn-complete section never changes nextStartTime. -/
theorem applyTurnComplete_nextStartTime (s : ServiceState) (m : ServerMessage) :
    (applyTurnComplete s m).1.nextStartTime = s.nextStartTime := by
  rcases m with ⟨ot, it, tc, ad, ir⟩
  cases tc
  · rfl
  · simp only [applyTurnComplete]
    split_ifs <;> rfl

/-- The audio section never lowers nextStartTime when every successfully
decoded duration is non-negative: it either leaves it alone, clamps it up
to the engine clock, or clamps and then advances. -/
theorem applyAudioChunk_nextStartTime_mono (s : ServiceState) (m : ServerMessage)
    (t : Rat)
    (hd : ∀ c, m.audioData = some c → ∀ d, c.decoded = some d → 0 ≤ d) :
    s.nextStartTime ≤ (applyAudioChunk s m t).1.nextStartTime := by
  cases hm : m.audioData with
  | none => simp [applyAudioChunk, hm]
  | some c =>
      by_cases hb : s.outputAudioContext = true
      · cases hc : c.decoded with
        | none =>
            simp only [applyAudioChunk, hm, hb, if_true, hc]
            exact le_max_left _ _
        | some dur =>
            simp only [applyAudioChunk, hm, hb, if_true, hc]
            calc s.nextStartTime ≤ max s.nextStartTime t := le_max_left _ _
              _ ≤ max s.nextStartTime t + dur :=
                  le_add_of_nonneg_right (hd c hm dur hc)
      · simp [applyAudioChunk, hm, hb]

/-- A message without the interruption signal leaves the final section of
handleMessage inert. -/
theorem applyInterruption_not_interrupted (s : ServiceState) (m : ServerMessage)
    (h : m.interrupted = false) :
    applyInterruption s m = (s, []) := by
  simp [applyInterruption, h]

/-- One step of handleMessage never lowers nextStartTime, provided the
message is not an interruption and its decoded duration (if any) is
non-negative. -/
theorem handleMessage_nextStartTime_mono (s : ServiceState) (m : ServerMessage)
    (t : Rat) (hni : m.interrupted = false)
    (hd : ∀ c, m.audioData = some c → ∀ d, c.decoded = some d → 0 ≤ d) :
    s.nextStartTime ≤ (handleMessage s m t).state.nextStartTime := by
  show s.nextStartTime ≤
    (applyInterruption
      (applyAudioChunk (applyTurnComplete (applyTranscription s m).1 m).1 m t).1
      m).1.nextStartTime
  rw [applyInterruption_not_interrupted _ m hni]
  calc s.nextStartTime
      = (applyTurnComplete (applyTranscription s m).1 m).1.nextStartTime := by
        rw [applyTurnComplete_nextStartTime, applyTranscription_nextStartTime]
    _ ≤ _ := applyAudioChunk_nextStartTime_mono _ m t hd

/-- Across any message sequence free of interruptions whose decoded buffer
durations are non-negative, nextStartTime is monotonically non-decreasing:
no step of chunk handling (including decode failures and transcript
handling) ever lowers it. -/
theorem nextStartTime_monotone (s : ServiceState)
    (msgs : List (ServerMessage × Rat))
    (hni : ∀ p ∈ msgs, (p : ServerMessage × Rat).1.interrupted = false)
    (hd : ∀ p ∈ msgs, ∀ c, (p : ServerMessage × Rat).1.audioData = some c →
      ∀ d, c.decoded = some d → 0 ≤ d) :
    s.nextStartTime ≤ (runMessages s msgs).state.nextStartTime := by
  induction msgs generalizing s with
  | nil => exact le_refl _
  | cons p rest ih =>
      obtain ⟨m, t⟩ := p
      calc s.nextStartTime
          ≤ (handleMessage s m t).state.nextStartTime :=
            handleMessage_nextStartTime_mono s m t
              (hni (m, t) (List.mem_cons_self _ _))
              (hd (m, t) (List.mem_cons_self _ _))
        _ ≤ (runMessages (handleMessage s m t).state rest).state.nextStartTime :=
            ih _ (fun q hq => hni q (List.mem_cons_of_mem _ hq))
              (fun q hq => hd q (List.mem_cons_of_mem _ hq))
        _ = (runMessages s ((m, t) :: rest)).state.nextStartTime := rfl

/-- Witness: nextStartTime does not decrease across a good chunk followed by
a failing chunk. -/
theorem nextStartTime_monotone_witness :
    connectedState.nextStartTime ≤
      (runMessages connectedState
        [(audioMessage 1, 0), (badAudioMessage, 2)]).state.nextStartTime := by
  apply nextStartTime_monotone
  · intro p hp
    rcases List.mem_cons.mp hp with h | h
    · rw [h]; rfl
    · rcases List.mem_cons.mp h with h2 | h2
      · rw [h2]; rfl
      · cases h2
  · intro p hp c hc d hdc
    rcases List.mem_cons.mp hp with h | h
    · rw [h] at hc
      have hcc : c = (⟨some 1⟩ : AudioChunk) := by
        simpa [audioMessage, emptyMessage] using hc.symm
      rw [hcc] at hdc
      have hdd : (1 : Rat) = d := by simpa using hdc
      rw [← hdd]
      norm_num
    · rcases List.mem_cons.mp h with h2 | h2
      · rw [h2] at hc
        have hcc : c = (⟨none⟩ : AudioChunk) := by
          simpa [badAudioMessage, emptyMessage] using hc.symm
        rw [hcc] at hdc
        cases hdc
      · cases h2

/-- For a message combining a Model delta, turn-complete, a decodable audio
chunk and an interruption, handleMessage applies all four fields in the
fixed order: the delta is appended before the turn-complete flush (both the
non-final and the final event carry the extended text), the audio chunk is
clamped against the pre-reset nextStartTime and scheduled, and the
interruption runs last (the freshly scheduled source is among the stopped
ones, the set ends empty, nextStartTime ends at 0). -/
theorem message_fields_applied_in_order (s : ServiceState) (d : String)
    (dur t : Rat) (hctx : s.outputAudioContext = true)
    (hin : s.currentInputTranscription = "")
    (hne : s.currentOutputTranscription ++ d ≠ "") :
    handleMessage s ⟨some d, none, true, some ⟨some dur⟩, true⟩ t =
      ⟨{ s with
          currentOutputTranscription := "", sources := [],
          nextStartTime := 0, nextId := s.nextId + 1 },
       [⟨s.currentOutputTranscription ++ d, false, false⟩,
        ⟨s.currentOutputTranscription ++ d, false, true⟩],
       [(s.nextId, max s.nextStartTime t)],
       s.sources ++ [s.nextId]⟩ := by
  rcases s with ⟨nst, src, cin, cout, ia, oa, ms, ca, sa, nid⟩
  simp only at hctx hin hne
  simp [handleMessage, applyTranscription, applyTurnComplete, applyAudioChunk,
    applyInterruption, stopAllAudioSources, hctx, hin, hne]

/-- Witness for the field-ordering behaviour at a concrete input. -/
theorem message_fields_applied_in_order_witness :
    handleMessage connectedState ⟨some "a", none, true, some ⟨some 1⟩, true⟩ 0 =
      ⟨{ connectedState with
          currentOutputTranscription := "", sources := [],
          nextStartTime := 0, nextId := connectedState.nextId + 1 },
       [⟨connectedState.currentOutputTranscription ++ "a", false, false⟩,
        ⟨connectedState.currentOutputTranscription ++ "a", false, true⟩],
       [(connectedState.nextId, max connectedState.nextStartTime 0)],
       connectedState.sources ++ [connectedState.nextId]⟩ :=
  message_fields_applied_in_order connectedState "a" 1 0 rfl rfl (by decide)

/-- Counterexample to the claim that a message carrying both transcript
deltas applies both: the else-if in the source drops the User delta
entirely — the User buffer stays empty and no User event is emitted; only
the Model delta is applied. -/
theorem both_deltas_user_delta_dropped :
    (handleMessage connectedState
      ⟨some "a", some "b", false, none, false⟩ 0).state.currentInputTranscription
        = "" ∧
    (handleMessage connectedState
      ⟨some "a", some "b", false, none, false⟩ 0).events
        = [⟨"a", false, false⟩] := by
  decide
